import Mathlib

set_option maxHeartbeats 1000000

/-!
Verification of the cache / dedup / merge core of the awsome-ai-news pipeline.

Shallow embedding of:
  - src/steps/step1_ingestion.py  (generate_slug)
  - src/steps/step2_dedup.py      (run_step2 dedup core, _load_cached_articles,
                                   _save_articles_to_daily_cache)
  - src/steps/step4_multi_dedup.py (_merge_duplicate_news)
  - src/utils/cache.py            (CacheManager.cleanup and friends)
  - src/steps/step0_cache.py      (lock lifecycle of run_step0)

Machine conventions: timestamps are modelled as integer seconds
(a filename date YYYY-MM-DD parses to midnight of that day, i.e. day * 86400);
Python dicts are modelled as association lists with dict insertion-order
semantics; the Python expression list(set(l)) is modelled as a
duplicate-free list of the same elements (setList).
-/

namespace AINews

/-! ### Step 1: slug generation (src/steps/step1_ingestion.py) -/

namespace Step1

def SLUG_WORD_COUNT : Nat := 4

def SLUG_HASH_LENGTH : Nat := 8

/-- One character class kept by the substitution
re.sub of the pattern class-complement-of word/space/dash with the empty string:
word characters (alphanumeric or underscore), whitespace, and dashes survive. -/
def keepChar (c : Char) : Bool :=
  c.isAlphanum || c == '_' || c.isWhitespace || c == '-'

theorem dropWhile_length_le (p : Char → Bool) (l : List Char) :
    (l.dropWhile p).length ≤ l.length := by
  induction l with
  | nil => simp [List.dropWhile]
  | cons c cs ih =>
    rw [List.dropWhile_cons]
    split
    · exact Nat.le_succ_of_le ih
    · simp

/-- Replace every maximal run of characters satisfying p by the single
character r (the re.sub of a one-character-class-plus pattern). -/
def collapseRuns (p : Char → Bool) (r : Char) : List Char → List Char
  | [] => []
  | c :: cs =>
    if p c then r :: collapseRuns p r (cs.dropWhile p)
    else c :: collapseRuns p r cs
termination_by l => l.length
decreasing_by
  · simp only [List.length_cons]
    have := dropWhile_length_le p cs
    omega
  · simp

/-- Title normalization of generate_slug: lowercase, strip, drop
punctuation, collapse whitespace runs to one space, collapse dash runs. -/
def normalizeTitle (title : String) : String :=
  let s1 := title.toLower.trim
  let s2 := String.mk (s1.data.filter keepChar)
  let s3 := String.mk (collapseRuns (fun c => c.isWhitespace) ' ' s2.data)
  String.mk (collapseRuns (fun c => c == '-') '-' s3.data)

/-- words = normalized.split()[:SLUG_WORD_COUNT]; word_part = "-".join(words). -/
def wordPart (title : String) : String :=
  let words := ((normalizeTitle title).split Char.isWhitespace).filter (fun w => w ≠ "")
  String.intercalate "-" (words.take SLUG_WORD_COUNT)

/-- base_slug = word_part + "-" + sha256(title.strip())[:SLUG_HASH_LENGTH];
the cryptographic hex digest is abstracted as the parameter h. -/
def baseSlug (h : String → String) (title : String) : String :=
  wordPart title ++ "-" ++ (h title.trim).take SLUG_HASH_LENGTH

/-- The collision loop of generate_slug:
slug starts as base_slug with counter = 1; while slug is taken, fail once
counter reaches 10, otherwise retry with base_slug with an underscore-counter
suffix and counter + 1. -/
def slugLoop (base : String) (existing : List String) (slug : String) (counter : Nat) :
    Except String String :=
  if slug ∈ existing then
    if _h10 : counter ≥ 10 then .error "Too many slug collisions"
    else slugLoop base existing (base ++ "_" ++ toString counter) (counter + 1)
  else .ok slug
termination_by 10 - counter
decreasing_by omega

/-- generate_slug of step1_ingestion.py, with the sha256 hex digest
abstracted as h. -/
def generate_slug (h : String → String) (title : String) (existing_slugs : List String) :
    Except String String :=
  slugLoop (baseSlug h title) existing_slugs (baseSlug h title) 1

/-- The k-th probed identity: the base slug itself for k = 0, and the
underscore-k suffixed variant for k = 1, 2, ... -/
def probe (base : String) (k : Nat) : String :=
  if k = 0 then base else base ++ "_" ++ toString k

/-- Index of the first free probe at position at least i (and below 10),
a specification-side companion of slugLoop. -/
def firstFreeFrom (existing : List String) (base : String) (i : Nat) : Option Nat :=
  if _h10 : 10 ≤ i then none
  else if probe base i ∈ existing then firstFreeFrom existing base (i + 1)
  else some i
termination_by 10 - i
decreasing_by omega

end Step1

/-! ### Shared list models of Python dict / set idioms -/

/-- list(set(l)) for strings, as a duplicate-free list of the elements of l
(first occurrences kept; the claims never depend on the iteration order of a
Python set, only on membership and cardinality). -/
def setListAux (seen : List String) : List String → List String
  | [] => []
  | x :: xs => if x ∈ seen then setListAux seen xs else x :: setListAux (x :: seen) xs

def setList (l : List String) : List String := setListAux [] l

/-! ### Step 4: multi-day news merge (src/steps/step4_multi_dedup.py) -/

namespace Step4

structure NewsCluster where
  news_id : String
  title : String
  summary : String
  article_slugs : List String
  article_count : Nat
  main_topic : String
  keywords : List String
  created_at : Int
  updated_at : Option Int
deriving DecidableEq, Repr

structure NewsDeduplicationPair where
  news_today_id : String
  news_cached_id : String
  merge_reason : String
deriving DecidableEq, Repr

/-- Python dict built by comprehension over a list keyed by news_id, then
dict.get: for duplicate ids the later element wins, hence find? on the
reversed list. -/
def dictGet (l : List NewsCluster) (i : String) : Option NewsCluster :=
  l.reverse.find? (fun n => n.news_id == i)

/-- Replace the first cluster with the given id (the enumerate-and-break
loop of _merge_duplicate_news). -/
def replaceFirstById : List NewsCluster → String → NewsCluster → List NewsCluster
  | [], _, _ => []
  | n :: rest, i, upd =>
    if n.news_id = i then upd :: rest else n :: replaceFirstById rest i upd

/-- The updated NewsCluster built for a merged pair: id, title, summary,
topic and created_at of the base; slugs the set-union of both sides with
article_count recomputed; keywords the set-union truncated to 10;
updated_at set to now. -/
def mergedCluster (base to_merge : NewsCluster) (now : Int) : NewsCluster :=
  let merged_slugs := setList (base.article_slugs ++ to_merge.article_slugs)
  { news_id := base.news_id
    title := base.title
    summary := base.summary
    article_slugs := merged_slugs
    article_count := merged_slugs.length
    main_topic := base.main_topic
    keywords := (setList (base.keywords ++ to_merge.keywords)).take 10
    created_at := base.created_at
    updated_at := some now }

/-- One iteration of the duplicate-pair loop of _merge_duplicate_news.
State: (result_news, merged_today_ids). Unresolvable pairs are skipped.
Base selection: today wins iff today.article_count >= cached.article_count.
If the base is the cached item the updated cluster replaces the first
result entry with that id; otherwise the cached item is filtered out of the
result and the updated cluster appended. -/
def processPair (today_news cached_news : List NewsCluster) (now : Int)
    (st : List NewsCluster × List String) (pair : NewsDeduplicationPair) :
    List NewsCluster × List String :=
  match dictGet today_news pair.news_today_id, dictGet cached_news pair.news_cached_id with
  | some today_item, some cached_item =>
    let base :=
      if today_item.article_count ≥ cached_item.article_count then today_item else cached_item
    let to_merge :=
      if today_item.article_count ≥ cached_item.article_count then cached_item else today_item
    let updated := mergedCluster base to_merge now
    let result2 :=
      if base = cached_item then replaceFirstById st.1 cached_item.news_id updated
      else (st.1.filter (fun n => n.news_id ≠ cached_item.news_id)) ++ [updated]
    (result2, st.2.insert pair.news_today_id)
  | _, _ => st

/-- _merge_duplicate_news: start from all cached news, process every pair,
then append the today clusters that were not absorbed. -/
def merge_duplicate_news (today_news cached_news : List NewsCluster)
    (duplicate_pairs : List NewsDeduplicationPair) (now : Int) : List NewsCluster :=
  let st := duplicate_pairs.foldl (processPair today_news cached_news now) (cached_news, [])
  st.1 ++ today_news.filter (fun n => n.news_id ∉ st.2)

end Step4

/-! ### Step 2: exact dedup (src/steps/step2_dedup.py) -/

namespace Step2

structure ProcessedArticle where
  title : String
  slug : String
deriving DecidableEq, Repr

structure CachedArticlesDay where
  date : Int
  articles : List ProcessedArticle
  total_count : Nat
deriving DecidableEq, Repr

/-- One shard file of the articles cache directory, by its two parse
outcomes: dateParse is the filename date as midnight seconds (none when
strptime fails on the stem) and body is the validated CachedArticlesDay
(none when the JSON parse or the schema validation fails). -/
structure CacheFile where
  dateParse : Option Int
  body : Option CachedArticlesDay
deriving DecidableEq, Repr

structure LoadStats where
  files_loaded : Nat
  files_corrupted : Nat
deriving DecidableEq, Repr

/-- One iteration of the file loop of _load_cached_articles: a failed date
parse counts as corrupted; a file dated before the cutoff is skipped
silently before its body is read; otherwise a bad body counts as corrupted
and a good body contributes its articles and one loaded file. -/
def loadFileStep (cutoff : Int) (acc : List ProcessedArticle × LoadStats) (f : CacheFile) :
    List ProcessedArticle × LoadStats :=
  match f.dateParse with
  | none => (acc.1, { acc.2 with files_corrupted := acc.2.files_corrupted + 1 })
  | some fileDate =>
    if fileDate < cutoff then acc
    else
      match f.body with
      | none => (acc.1, { acc.2 with files_corrupted := acc.2.files_corrupted + 1 })
      | some day =>
        (acc.1 ++ day.articles, { acc.2 with files_loaded := acc.2.files_loaded + 1 })

/-- _load_cached_articles over the directory listing (files in sorted
name order, as glob delivers them). -/
def load_cached_articles (files : List CacheFile) (cutoff : Int) :
    List ProcessedArticle × LoadStats :=
  files.foldl (loadFileStep cutoff) ([], ⟨0, 0⟩)

/-- One iteration of the dedup loop of run_step2 over state
(unique_articles, duplicates, slug_map keys). -/
def dedupStep (st : List ProcessedArticle × Nat × List String) (a : ProcessedArticle) :
    List ProcessedArticle × Nat × List String :=
  if a.slug ∈ st.2.2 then (st.1, st.2.1 + 1, st.2.2)
  else (st.1 ++ [a], st.2.1, a.slug :: st.2.2)

/-- The dedup core of run_step2: the slug map is seeded with the cached
articles, then the input is scanned in order, first occurrence wins.
Returns (unique_articles, duplicates). -/
def dedupArticles (cached articles : List ProcessedArticle) : List ProcessedArticle × Nat :=
  let st := articles.foldl dedupStep ([], 0, cached.map (fun a => a.slug))
  (st.1, st.2.1)

/-- dedup_rate = duplicates / len(articles) if articles else 0.0. -/
def dedupRate (duplicates inputLen : Nat) : ℚ :=
  if inputLen = 0 then 0 else (duplicates : ℚ) / (inputLen : ℚ)

/-- Python dict insertion keyed by slug: an existing key is overwritten in
place, a new key is appended. -/
def dictInsertArticle (l : List ProcessedArticle) (a : ProcessedArticle) :
    List ProcessedArticle :=
  if l.any (fun b => b.slug == a.slug) then
    l.map (fun b => if b.slug == a.slug then a else b)
  else l ++ [a]

/-- dict comprehension over a list keyed by slug (collapses duplicate
slugs, last value wins, first position kept). -/
def dictOfArticles (l : List ProcessedArticle) : List ProcessedArticle :=
  l.foldl dictInsertArticle []

/-- The merge of _save_articles_to_daily_cache: existing articles first,
new articles union-ed in keyed by slug (new overwrites old). -/
def upsertBySlug (existing new : List ProcessedArticle) : List ProcessedArticle :=
  new.foldl dictInsertArticle (dictOfArticles existing)

/-- State of the daily cache file for today when _save_articles_to_daily_cache
runs: absent, present but failing JSON parse or validation, or valid. -/
inductive TodayFileState where
  | absent
  | corrupt
  | valid (day : CachedArticlesDay)
deriving DecidableEq, Repr

/-- The articles recovered from the existing file: a corrupt file is
treated exactly like a missing one. -/
def todayFileArticles : TodayFileState → List ProcessedArticle
  | .absent => []
  | .corrupt => []
  | .valid day => day.articles

/-- _save_articles_to_daily_cache: load the existing file if any (an
unreadable body degrades to the empty list), merge the new articles in by
slug, rewrite the file, report success. -/
def save_articles_to_daily_cache (st : TodayFileState) (articles : List ProcessedArticle)
    (now : Int) : Bool × CachedArticlesDay :=
  let existing := todayFileArticles st
  let all := upsertBySlug existing articles
  (true, { date := now, articles := all, total_count := all.length })

end Step2

/-! ### CacheManager (src/utils/cache.py) -/

namespace CacheUtil

/-- One top-level JSON file of the cache directory tree, identified by its
key (path relative to the cache root, without the .json suffix; a
date-sharded file under a category subdirectory has a key containing a
slash). cachedAt is the parsed cached_at timestamp of the body, none when
the body has no readable cached_at field. -/
structure CacheEntry where
  key : String
  cachedAt : Option Int
deriving DecidableEq, Repr

def cacheExists (entries : List CacheEntry) (key : String) : Bool :=
  entries.any (fun e => e.key == key)

/-- get_age: none when the file is missing or its cached_at is unreadable,
otherwise now minus cached_at (seconds). -/
def getAge (entries : List CacheEntry) (key : String) (now : Int) : Option Int :=
  match entries.find? (fun e => e.key == key) with
  | none => none
  | some e => e.cachedAt.map (fun t => now - t)

/-- is_fresh: age.days < max_age_days, where timedelta.days is floor
division of the age in seconds by 86400; a missing age is not fresh. -/
def isFresh (entries : List CacheEntry) (key : String) (maxAgeDays : Nat) (now : Int) : Bool :=
  match getAge entries key now with
  | none => false
  | some age => Int.fdiv age 86400 < (maxAgeDays : Int)

/-- delete: unlink the file of the key if present. -/
def cacheDelete (entries : List CacheEntry) (key : String) : List CacheEntry :=
  entries.filter (fun e => e.key ≠ key)

/-- One iteration of CacheManager.cleanup over a (key, days) retention
item. -/
def cleanupStep (now : Int) (st : List CacheEntry × Nat) (p : String × Nat) :
    List CacheEntry × Nat :=
  if cacheExists st.1 p.1 && !(isFresh st.1 p.1 p.2 now) then
    (cacheDelete st.1 p.1, st.2 + 1)
  else st

/-- CacheManager.cleanup: for each configured key, delete the top-level
file of that key when it exists and is not fresh; count deletions. -/
def cleanup (entries : List CacheEntry) (retention : List (String × Nat)) (now : Int) :
    List CacheEntry × Nat :=
  retention.foldl (cleanupStep now) (entries, 0)

end CacheUtil

/-! ### Step 0: lock lifecycle (src/steps/step0_cache.py) -/

namespace Step0

/-- acquire_lock_file over the lock-file state (mtime of the lock file when
present): a lock older than 3600 seconds is removed and re-acquired, an
unexpired lock fails the acquisition, no lock acquires immediately. -/
def acquire_lock_file (lock : Option Int) (now : Int) : Bool × Option Int :=
  match lock with
  | some t => if now - t > 3600 then (true, some now) else (false, some t)
  | none => (true, some now)

/-- release_lock_file: unlink the lock file if present (idempotent). -/
def release_lock_file (_lock : Option Int) : Option Int := none

/-- The lock lifecycle of run_step0: acquire inside the try block, return
early with success False when acquisition fails, otherwise run the body
(abstracted by bodyOk); the finally block releases the lock on every
path. Returns (success, final lock-file state). -/
def run_step0 (lock : Option Int) (now : Int) (bodyOk : Bool) : Bool × Option Int :=
  let a := acquire_lock_file lock now
  let success := if a.1 then bodyOk else false
  (success, release_lock_file a.2)

end Step0

/-! ## Helper lemmas -/

/-- Elements of a dict insertion come from the old dict or are the new value. -/
theorem mem_dictInsertArticle {l : List Step2.ProcessedArticle} {a x : Step2.ProcessedArticle}
    (hx : x ∈ Step2.dictInsertArticle l a) : x ∈ l ∨ x = a := by
  unfold Step2.dictInsertArticle at hx
  split at hx
  · obtain ⟨b, hb, hbx⟩ := List.mem_map.mp hx
    by_cases hs : b.slug == a.slug
    · right
      rw [if_pos hs] at hbx
      exact hbx.symm
    · left
      rw [if_neg hs] at hbx
      exact hbx ▸ hb
  · rcases List.mem_append.mp hx with h | h
    · exact Or.inl h
    · exact Or.inr (List.mem_singleton.mp h)

/-- A slug present in the dict stays present after an insertion. -/
theorem hasSlug_dictInsertArticle {l : List Step2.ProcessedArticle}
    {a : Step2.ProcessedArticle} {s : String} (h : ∃ b ∈ l, b.slug = s) :
    ∃ b ∈ Step2.dictInsertArticle l a, b.slug = s := by
  obtain ⟨b, hb, hbs⟩ := h
  unfold Step2.dictInsertArticle
  split
  · by_cases hs : b.slug == a.slug
    · refine ⟨a, List.mem_map.mpr ⟨b, hb, by rw [if_pos hs]⟩, ?_⟩
      have : b.slug = a.slug := by simpa using hs
      rw [← this, hbs]
    · exact ⟨b, List.mem_map.mpr ⟨b, hb, by rw [if_neg hs]⟩, hbs⟩
  · exact ⟨b, List.mem_append.mpr (Or.inl hb), hbs⟩

/-- The inserted slug is present after an insertion. -/
theorem hasSlug_dictInsertArticle_self (l : List Step2.ProcessedArticle)
    (a : Step2.ProcessedArticle) :
    ∃ b ∈ Step2.dictInsertArticle l a, b.slug = a.slug := by
  unfold Step2.dictInsertArticle
  split
  · next hany =>
    obtain ⟨b, hb, hbs⟩ := List.any_eq_true.mp hany
    refine ⟨a, List.mem_map.mpr ⟨b, hb, by rw [if_pos hbs]⟩, rfl⟩
  · exact ⟨a, List.mem_append.mpr (Or.inr (List.mem_singleton.mpr rfl)), rfl⟩

/-- Folding dict insertions preserves existing slugs. -/
theorem hasSlug_foldl_dictInsert (new : List Step2.ProcessedArticle) :
    ∀ (l : List Step2.ProcessedArticle) (s : String), (∃ b ∈ l, b.slug = s) →
      ∃ b ∈ new.foldl Step2.dictInsertArticle l, b.slug = s := by
  induction new with
  | nil => intro l s h; exact h
  | cons a rest ih =>
    intro l s h
    exact ih _ s (hasSlug_dictInsertArticle h)

/-- Every inserted slug is present after folding in the insertions. -/
theorem hasSlug_foldl_dictInsert_of_mem (new : List Step2.ProcessedArticle) :
    ∀ (l : List Step2.ProcessedArticle) (a : Step2.ProcessedArticle), a ∈ new →
      ∃ b ∈ new.foldl Step2.dictInsertArticle l, b.slug = a.slug := by
  induction new with
  | nil => intro l a h; cases h
  | cons x rest ih =>
    intro l a h
    rcases List.mem_cons.mp h with h | h
    · subst h
      exact hasSlug_foldl_dictInsert rest _ a.slug (hasSlug_dictInsertArticle_self l a)
    · exact ih _ a h

/-- Elements produced by folding dict insertions come from the seed or the
inserted list. -/
theorem mem_foldl_dictInsert (new : List Step2.ProcessedArticle) :
    ∀ (l : List Step2.ProcessedArticle) (x : Step2.ProcessedArticle),
      x ∈ new.foldl Step2.dictInsertArticle l → x ∈ l ∨ x ∈ new := by
  induction new with
  | nil => intro l x h; exact Or.inl h
  | cons a rest ih =>
    intro l x h
    rcases ih _ x h with h | h
    · rcases mem_dictInsertArticle h with h | h
      · exact Or.inl h
      · exact Or.inr (List.mem_cons.mpr (Or.inl h))
    · exact Or.inr (List.mem_cons.mpr (Or.inr h))

/-- Slugs of the existing side survive upsertBySlug. -/
theorem hasSlug_upsert_left (existing new : List Step2.ProcessedArticle)
    (a : Step2.ProcessedArticle) (ha : a ∈ existing) :
    ∃ b ∈ Step2.upsertBySlug existing new, b.slug = a.slug := by
  unfold Step2.upsertBySlug
  exact hasSlug_foldl_dictInsert new _ a.slug
    (hasSlug_foldl_dictInsert_of_mem existing [] a ha)

/-- Slugs of the new side survive upsertBySlug. -/
theorem hasSlug_upsert_right (existing new : List Step2.ProcessedArticle)
    (a : Step2.ProcessedArticle) (ha : a ∈ new) :
    ∃ b ∈ Step2.upsertBySlug existing new, b.slug = a.slug := by
  unfold Step2.upsertBySlug
  exact hasSlug_foldl_dictInsert_of_mem new _ a ha

/-- Elements of an upsert come from one of the two sides. -/
theorem mem_upsert (existing new : List Step2.ProcessedArticle)
    (x : Step2.ProcessedArticle) (hx : x ∈ Step2.upsertBySlug existing new) :
    x ∈ existing ∨ x ∈ new := by
  unfold Step2.upsertBySlug at hx
  rcases mem_foldl_dictInsert new _ x hx with h | h
  · exact Or.inl (by
      rcases mem_foldl_dictInsert existing [] x h with h0 | h0
      · cases h0
      · exact h0)
  · exact Or.inr h

/-- The cleanup fold never adds entries. -/
theorem cleanup_subset (retention : List (String × Nat)) :
    ∀ (st : List CacheUtil.CacheEntry × Nat) (e : CacheUtil.CacheEntry) (now : Int),
      e ∈ (retention.foldl (CacheUtil.cleanupStep now) st).1 → e ∈ st.1 := by
  induction retention with
  | nil => intro st e now h; exact h
  | cons p rest ih =>
    intro st e now h
    have hmem := ih (CacheUtil.cleanupStep now st p) e now h
    unfold CacheUtil.cleanupStep at hmem
    split at hmem
    · simp only [CacheUtil.cacheDelete] at hmem
      exact (List.mem_filter.mp hmem).1
    · exact hmem

/-- An entry whose key never occurs in the retention list survives the
cleanup fold. -/
theorem cleanup_preserves (retention : List (String × Nat)) :
    ∀ (st : List CacheUtil.CacheEntry × Nat) (e : CacheUtil.CacheEntry) (now : Int),
      e ∈ st.1 → (∀ p ∈ retention, e.key ≠ p.1) →
      e ∈ (retention.foldl (CacheUtil.cleanupStep now) st).1 := by
  induction retention with
  | nil => intro st e now h _; exact h
  | cons p rest ih =>
    intro st e now h hk
    refine ih (CacheUtil.cleanupStep now st p) e now ?_
      (fun q hq => hk q (List.mem_cons.mpr (Or.inr hq)))
    unfold CacheUtil.cleanupStep
    split
    · simp only [CacheUtil.cacheDelete]
      exact List.mem_filter.mpr ⟨h, by simpa using hk p (List.mem_cons.mpr (Or.inl rfl))⟩
    · exact h

/-- The probed identity for a positive counter is the underscore variant. -/
theorem probe_succ (base : String) (c : Nat) (hc : 1 ≤ c) :
    base ++ "_" ++ toString c = Step1.probe base c := by
  unfold Step1.probe
  rw [if_neg (by omega)]

/-- The collision loop, entered at counter c probing the (c-1)-th identity,
returns the first free probe at index at least c - 1, and fails when none
of the probes below index 10 is free. -/
theorem slugLoop_eq_firstFree (base : String) (ex : List String) :
    ∀ (n c : Nat), 1 ≤ c → c + n = 10 →
      Step1.slugLoop base ex (Step1.probe base (c - 1)) c =
        (match Step1.firstFreeFrom ex base (c - 1) with
         | some j => Except.ok (Step1.probe base j)
         | none => Except.error "Too many slug collisions") := by
  intro n
  induction n with
  | zero =>
    intro c _hc hsum
    have hc10 : c = 10 := by omega
    subst hc10
    rw [Step1.slugLoop]
    by_cases hmem : Step1.probe base (10 - 1) ∈ ex
    · rw [if_pos hmem, dif_pos (by omega : (10 : Nat) ≥ 10)]
      rw [Step1.firstFreeFrom, dif_neg (by omega : ¬ (10 : Nat) ≤ 10 - 1), if_pos hmem]
      rw [Step1.firstFreeFrom, dif_pos (by omega : (10 : Nat) ≤ 10 - 1 + 1)]
    · rw [if_neg hmem, Step1.firstFreeFrom,
        dif_neg (by omega : ¬ (10 : Nat) ≤ 10 - 1), if_neg hmem]
  | succ n ih =>
    intro c hc hsum
    rw [Step1.slugLoop, Step1.firstFreeFrom]
    by_cases hmem : Step1.probe base (c - 1) ∈ ex
    · have hc10 : ¬ c ≥ 10 := by omega
      have h10 : ¬ 10 ≤ c - 1 := by omega
      rw [if_pos hmem, dif_neg hc10, dif_neg h10, if_pos hmem, probe_succ base c hc]
      have hrec := ih (c + 1) (by omega) (by omega)
      simp only [Nat.add_sub_cancel] at hrec
      rw [Nat.sub_add_cancel hc, hrec]
    · have h10 : ¬ 10 ≤ c - 1 := by omega
      rw [if_neg hmem, dif_neg h10, if_neg hmem]

/-- firstFreeFrom finds nothing iff every probe from i up to 9 is taken. -/
theorem firstFreeFrom_none_iff (ex : List String) (base : String) :
    ∀ (n i : Nat), i + n = 10 →
      (Step1.firstFreeFrom ex base i = none ↔
        ∀ j, i ≤ j → j < 10 → Step1.probe base j ∈ ex) := by
  intro n
  induction n with
  | zero =>
    intro i hsum
    have hi : i = 10 := by omega
    subst hi
    rw [Step1.firstFreeFrom, dif_pos (by omega : (10 : Nat) ≤ 10)]
    constructor
    · intro _ j hj1 hj2
      omega
    · intro _
      rfl
  | succ n ih =>
    intro i hsum
    rw [Step1.firstFreeFrom, dif_neg (by omega : ¬ 10 ≤ i)]
    by_cases hmem : Step1.probe base i ∈ ex
    · rw [if_pos hmem, ih (i + 1) (by omega)]
      constructor
      · intro h j hj1 hj2
        rcases Nat.eq_or_lt_of_le hj1 with heq | hlt
        · exact heq ▸ hmem
        · exact h j hlt hj2
      · intro h j hj1 hj2
        exact h j (by omega) hj2
    · rw [if_neg hmem]
      constructor
      · intro h
        cases h
      · intro h
        exact absurd (h i (le_refl i) (by omega)) hmem

/-- firstFreeFrom returns the least free probe index. -/
theorem firstFreeFrom_some_of (ex : List String) (base : String) :
    ∀ (n i k : Nat), i + n = 10 → i ≤ k → k < 10 →
      Step1.probe base k ∉ ex → (∀ j, i ≤ j → j < k → Step1.probe base j ∈ ex) →
      Step1.firstFreeFrom ex base i = some k := by
  intro n
  induction n with
  | zero =>
    intro i k hsum hik hk _ _
    omega
  | succ n ih =>
    intro i k hsum hik hk hkfree hbelow
    rw [Step1.firstFreeFrom, dif_neg (by omega : ¬ 10 ≤ i)]
    rcases Nat.eq_or_lt_of_le hik with heq | hlt
    · subst heq
      rw [if_neg hkfree]
    · rw [if_pos (hbelow i (le_refl i) hlt)]
      exact ih (i + 1) k (by omega) (by omega) hk hkfree
        (fun j hj1 hj2 => hbelow j (by omega) hj2)

/-- The duplicate branch of the dedup loop. -/
theorem dedupStep_dup (st : List Step2.ProcessedArticle × Nat × List String)
    (a : Step2.ProcessedArticle) (hm : a.slug ∈ st.2.2) :
    Step2.dedupStep st a = (st.1, st.2.1 + 1, st.2.2) := by
  unfold Step2.dedupStep
  rw [if_pos hm]

/-- The unique branch of the dedup loop. -/
theorem dedupStep_new (st : List Step2.ProcessedArticle × Nat × List String)
    (a : Step2.ProcessedArticle) (hm : a.slug ∉ st.2.2) :
    Step2.dedupStep st a = (st.1 ++ [a], st.2.1, a.slug :: st.2.2) := by
  unfold Step2.dedupStep
  rw [if_neg hm]

/-- The slug map of the dedup loop only grows. -/
theorem dedup_slugs_mono (articles : List Step2.ProcessedArticle) :
    ∀ (st : List Step2.ProcessedArticle × Nat × List String) (s : String),
      s ∈ st.2.2 → s ∈ (articles.foldl Step2.dedupStep st).2.2 := by
  induction articles with
  | nil => intro st s h; exact h
  | cons a rest ih =>
    intro st s h
    refine ih (Step2.dedupStep st a) s ?_
    by_cases hm : a.slug ∈ st.2.2
    · rw [dedupStep_dup st a hm]
      exact h
    · rw [dedupStep_new st a hm]
      exact List.mem_cons.mpr (Or.inr h)

/-- Every processed article's slug ends up in the slug map. -/
theorem dedup_slug_of_mem (articles : List Step2.ProcessedArticle) :
    ∀ (st : List Step2.ProcessedArticle × Nat × List String) (a : Step2.ProcessedArticle),
      a ∈ articles → a.slug ∈ (articles.foldl Step2.dedupStep st).2.2 := by
  induction articles with
  | nil => intro st a h; cases h
  | cons x rest ih =>
    intro st a h
    rcases List.mem_cons.mp h with h | h
    · refine dedup_slugs_mono rest (Step2.dedupStep st x) a.slug ?_
      rw [h]
      by_cases hm : x.slug ∈ st.2.2
      · rw [dedupStep_dup st x hm]
        exact hm
      · rw [dedupStep_new st x hm]
        exact List.mem_cons.mpr (Or.inl rfl)
    · exact ih (Step2.dedupStep st x) a h

/-- The unique list of the dedup loop only grows. -/
theorem dedup_uniques_mono (articles : List Step2.ProcessedArticle) :
    ∀ (st : List Step2.ProcessedArticle × Nat × List String) (x : Step2.ProcessedArticle),
      x ∈ st.1 → x ∈ (articles.foldl Step2.dedupStep st).1 := by
  induction articles with
  | nil => intro st x h; exact h
  | cons a rest ih =>
    intro st x h
    refine ih (Step2.dedupStep st a) x ?_
    by_cases hm : a.slug ∈ st.2.2
    · rw [dedupStep_dup st a hm]
      exact h
    · rw [dedupStep_new st a hm]
      exact List.mem_append.mpr (Or.inl h)

/-- A slug in the final map was seeded or belongs to a produced unique. -/
theorem dedup_slugs_source (articles : List Step2.ProcessedArticle) :
    ∀ (st : List Step2.ProcessedArticle × Nat × List String) (s : String),
      s ∈ (articles.foldl Step2.dedupStep st).2.2 →
      s ∈ st.2.2 ∨ ∃ b ∈ (articles.foldl Step2.dedupStep st).1, b.slug = s := by
  induction articles with
  | nil => intro st s h; exact Or.inl h
  | cons a rest ih =>
    intro st s h
    rcases ih (Step2.dedupStep st a) s h with h1 | h2
    · by_cases hm : a.slug ∈ st.2.2
      · rw [dedupStep_dup st a hm] at h1
        exact Or.inl h1
      · rw [dedupStep_new st a hm] at h1
        rcases List.mem_cons.mp h1 with h1 | h1
        · refine Or.inr ⟨a, ?_, h1.symm⟩
          refine dedup_uniques_mono rest (Step2.dedupStep st a) a ?_
          rw [dedupStep_new st a hm]
          exact List.mem_append.mpr (Or.inr (List.mem_singleton.mpr rfl))
        · exact Or.inl h1
    · exact Or.inr h2

/-- When every input slug is already in the map, nothing is unique and
every record counts as a duplicate. -/
theorem dedup_all_known (articles : List Step2.ProcessedArticle) :
    ∀ (st : List Step2.ProcessedArticle × Nat × List String),
      (∀ a ∈ articles, a.slug ∈ st.2.2) →
      (articles.foldl Step2.dedupStep st).1 = st.1 ∧
      (articles.foldl Step2.dedupStep st).2.1 = st.2.1 + articles.length := by
  induction articles with
  | nil => intro st _; exact ⟨rfl, rfl⟩
  | cons a rest ih =>
    intro st h
    have hstep : Step2.dedupStep st a = (st.1, st.2.1 + 1, st.2.2) := by
      unfold Step2.dedupStep
      rw [if_pos (h a (List.mem_cons.mpr (Or.inl rfl)))]
    have hrest := ih (st.1, st.2.1 + 1, st.2.2)
      (fun b hb => h b (List.mem_cons.mpr (Or.inr hb)))
    refine ⟨?_, ?_⟩
    · show (rest.foldl Step2.dedupStep (Step2.dedupStep st a)).1 = st.1
      rw [hstep]
      exact hrest.1
    · show (rest.foldl Step2.dedupStep (Step2.dedupStep st a)).2.1 = st.2.1 + (a :: rest).length
      rw [hstep, hrest.2]
      simp only [List.length_cons]
      omega

theorem dedupArticles_fst (cached arts : List Step2.ProcessedArticle) :
    (Step2.dedupArticles cached arts).1 =
      (arts.foldl Step2.dedupStep ([], 0, cached.map (fun b => b.slug))).1 := rfl

theorem dedupArticles_snd (cached arts : List Step2.ProcessedArticle) :
    (Step2.dedupArticles cached arts).2 =
      (arts.foldl Step2.dedupStep ([], 0, cached.map (fun b => b.slug))).2.1 := rfl

theorem save_articles_body (st0 : Step2.TodayFileState) (arts : List Step2.ProcessedArticle)
    (now : Int) :
    (Step2.save_articles_to_daily_cache st0 arts now).2.articles =
      Step2.upsertBySlug (Step2.todayFileArticles st0) arts := rfl

/-- The cached articles visible to a second run_step2 invocation on the
same day: the non-today shards are unchanged; the today shard contains
what the first run left there (unchanged when the first run produced no
unique articles and hence skipped the save, otherwise the slug-keyed
union written by _save_articles_to_daily_cache). -/
def Step2.secondRunCache (others : List Step2.ProcessedArticle) (st0 : Step2.TodayFileState)
    (articles : List Step2.ProcessedArticle) (now : Int) : List Step2.ProcessedArticle :=
  let r1 := Step2.dedupArticles (others ++ Step2.todayFileArticles st0) articles
  if r1.1 = [] then others ++ Step2.todayFileArticles st0
  else others ++ (Step2.save_articles_to_daily_cache st0 r1.1 now).2.articles

/-- Membership in the set-list builder: collected iff present and not
already seen. -/
theorem mem_setListAux (l : List String) :
    ∀ (seen : List String) (s : String), s ∈ setListAux seen l ↔ s ∈ l ∧ s ∉ seen := by
  induction l with
  | nil =>
    intro seen s
    simp [setListAux]
  | cons x xs ih =>
    intro seen s
    unfold setListAux
    by_cases hx : x ∈ seen
    · rw [if_pos hx, ih seen s]
      constructor
      · rintro ⟨h1, h2⟩
        exact ⟨List.mem_cons.mpr (Or.inr h1), h2⟩
      · rintro ⟨h1, h2⟩
        rcases List.mem_cons.mp h1 with rfl | h1
        · exact absurd hx h2
        · exact ⟨h1, h2⟩
    · rw [if_neg hx]
      constructor
      · intro hm
        rcases List.mem_cons.mp hm with rfl | hm
        · exact ⟨List.mem_cons.mpr (Or.inl rfl), hx⟩
        · obtain ⟨h1, h2⟩ := (ih (x :: seen) s).mp hm
          exact ⟨List.mem_cons.mpr (Or.inr h1),
            fun hs => h2 (List.mem_cons.mpr (Or.inr hs))⟩
      · rintro ⟨h1, h2⟩
        rcases List.mem_cons.mp h1 with rfl | h1
        · exact List.mem_cons.mpr (Or.inl rfl)
        · by_cases hxs : s = x
          · exact List.mem_cons.mpr (Or.inl hxs)
          · refine List.mem_cons.mpr (Or.inr ((ih (x :: seen) s).mpr ⟨h1, ?_⟩))
            intro hcon
            rcases List.mem_cons.mp hcon with h | h
            · exact hxs h
            · exact h2 h

/-- setList preserves membership exactly. -/
theorem mem_setList (l : List String) (s : String) : s ∈ setList l ↔ s ∈ l := by
  unfold setList
  rw [mem_setListAux]
  simp

theorem dictGet_singleton (a : Step4.NewsCluster) (i : String) (hia : i = a.news_id) :
    Step4.dictGet [a] i = some a := by
  subst hia
  simp [Step4.dictGet]

theorem dictGet_pair_fst (a b : Step4.NewsCluster) (i : String) (hia : i = a.news_id)
    (hb : b.news_id ≠ a.news_id) : Step4.dictGet [a, b] i = some a := by
  subst hia
  simp [Step4.dictGet, hb]

theorem dictGet_pair_snd (a b : Step4.NewsCluster) (i : String) (hib : i = b.news_id) :
    Step4.dictGet [a, b] i = some b := by
  subst hib
  simp [Step4.dictGet]

/-- A pair whose sides both resolve produces the merge body. -/
theorem processPair_resolved (today cached : List Step4.NewsCluster) (now : Int)
    (st : List Step4.NewsCluster × List String) (pair : Step4.NewsDeduplicationPair)
    (ti ci : Step4.NewsCluster)
    (h1 : Step4.dictGet today pair.news_today_id = some ti)
    (h2 : Step4.dictGet cached pair.news_cached_id = some ci) :
    Step4.processPair today cached now st pair =
      (let base := if ti.article_count ≥ ci.article_count then ti else ci
       let to_merge := if ti.article_count ≥ ci.article_count then ci else ti
       let updated := Step4.mergedCluster base to_merge now
       (if base = ci then Step4.replaceFirstById st.1 ci.news_id updated
        else (st.1.filter (fun n => n.news_id ≠ ci.news_id)) ++ [updated],
        st.2.insert pair.news_today_id)) := by
  unfold Step4.processPair
  rw [h1, h2]

/-- When the today side has at least as many articles, the today side is
the base: the cached item is dropped from the result and the updated
cluster appended. -/
theorem processPair_base_today (today cached : List Step4.NewsCluster) (now : Int)
    (st : List Step4.NewsCluster × List String) (pair : Step4.NewsDeduplicationPair)
    (ti ci : Step4.NewsCluster)
    (h1 : Step4.dictGet today pair.news_today_id = some ti)
    (h2 : Step4.dictGet cached pair.news_cached_id = some ci)
    (hge : ti.article_count ≥ ci.article_count) (hne : ti ≠ ci) :
    Step4.processPair today cached now st pair =
      ((st.1.filter (fun n => n.news_id ≠ ci.news_id)) ++ [Step4.mergedCluster ti ci now],
       st.2.insert pair.news_today_id) := by
  rw [processPair_resolved today cached now st pair ti ci h1 h2]
  dsimp only
  rw [if_pos hge, if_pos hge, if_neg hne]

/-- When the cached side has strictly more articles, the cached side is
the base and is replaced in place. -/
theorem processPair_base_cached (today cached : List Step4.NewsCluster) (now : Int)
    (st : List Step4.NewsCluster × List String) (pair : Step4.NewsDeduplicationPair)
    (ti ci : Step4.NewsCluster)
    (h1 : Step4.dictGet today pair.news_today_id = some ti)
    (h2 : Step4.dictGet cached pair.news_cached_id = some ci)
    (hlt : ti.article_count < ci.article_count) :
    Step4.processPair today cached now st pair =
      (Step4.replaceFirstById st.1 ci.news_id (Step4.mergedCluster ci ti now),
       st.2.insert pair.news_today_id) := by
  rw [processPair_resolved today cached now st pair ti ci h1 h2]
  dsimp only
  rw [if_neg (by omega : ¬ ti.article_count ≥ ci.article_count),
    if_neg (by omega : ¬ ti.article_count ≥ ci.article_count), if_pos rfl]

/-- The data-model invariant of a news cluster: article_count matches the
slug list and at most 10 keywords. -/
def Step4.clusterInv (n : Step4.NewsCluster) : Prop :=
  n.article_count = n.article_slugs.length ∧ n.keywords.length ≤ 10

instance (n : Step4.NewsCluster) : Decidable (Step4.clusterInv n) := by
  unfold Step4.clusterInv
  infer_instance

/-- A merged cluster always satisfies the invariant: its count is
recomputed and its keywords truncated to 10. -/
theorem mergedCluster_inv (b m : Step4.NewsCluster) (now : Int) :
    Step4.clusterInv (Step4.mergedCluster b m now) := by
  constructor
  · rfl
  · show ((setList (b.keywords ++ m.keywords)).take 10).length ≤ 10
    rw [List.length_take]
    exact min_le_left _ _

/-- Elements after an in-place replacement come from the old list or are
the replacement. -/
theorem mem_replaceFirstById (i : String) (u : Step4.NewsCluster) :
    ∀ (l : List Step4.NewsCluster) (x : Step4.NewsCluster),
      x ∈ Step4.replaceFirstById l i u → x ∈ l ∨ x = u := by
  intro l
  induction l with
  | nil => intro x h; cases h
  | cons n rest ih =>
    intro x h
    unfold Step4.replaceFirstById at h
    split at h
    · rcases List.mem_cons.mp h with rfl | h
      · exact Or.inr rfl
      · exact Or.inl (List.mem_cons.mpr (Or.inr h))
    · rcases List.mem_cons.mp h with rfl | h
      · exact Or.inl (List.mem_cons.mpr (Or.inl rfl))
      · rcases ih x h with h | h
        · exact Or.inl (List.mem_cons.mpr (Or.inr h))
        · exact Or.inr h

/-- One merge step preserves the cluster invariant on the result list. -/
theorem processPair_inv (today cached : List Step4.NewsCluster) (now : Int)
    (st : List Step4.NewsCluster × List String) (pair : Step4.NewsDeduplicationPair)
    (hst : ∀ n ∈ st.1, Step4.clusterInv n) :
    ∀ n ∈ (Step4.processPair today cached now st pair).1, Step4.clusterInv n := by
  intro n hn
  unfold Step4.processPair at hn
  cases h1 : Step4.dictGet today pair.news_today_id with
  | none =>
    rw [h1] at hn
    exact hst n hn
  | some ti =>
    cases h2 : Step4.dictGet cached pair.news_cached_id with
    | none =>
      rw [h1, h2] at hn
      exact hst n hn
    | some ci =>
      rw [h1, h2] at hn
      dsimp only at hn
      split at hn
      · split at hn
        · rcases mem_replaceFirstById _ _ st.1 n hn with h | h
          · exact hst n h
          · rw [h]
            exact mergedCluster_inv _ _ _
        · rcases List.mem_append.mp hn with h | h
          · exact hst n (List.mem_filter.mp h).1
          · rw [List.mem_singleton.mp h]
            exact mergedCluster_inv _ _ _
      · split at hn
        · rcases mem_replaceFirstById _ _ st.1 n hn with h | h
          · exact hst n h
          · rw [h]
            exact mergedCluster_inv _ _ _
        · rcases List.mem_append.mp hn with h | h
          · exact hst n (List.mem_filter.mp h).1
          · rw [List.mem_singleton.mp h]
            exact mergedCluster_inv _ _ _

/-- The merge fold preserves the cluster invariant. -/
theorem merge_fold_inv (today cached : List Step4.NewsCluster) (now : Int) :
    ∀ (pairs : List Step4.NewsDeduplicationPair)
      (st : List Step4.NewsCluster × List String),
      (∀ n ∈ st.1, Step4.clusterInv n) →
      ∀ n ∈ (pairs.foldl (Step4.processPair today cached now) st).1, Step4.clusterInv n := by
  intro pairs
  induction pairs with
  | nil => intro st h; exact h
  | cons p rest ih =>
    intro st h
    exact ih (Step4.processPair today cached now st p)
      (processPair_inv today cached now st p h)

/-! ## Claims -/

/-- C1 counterexample: a resolvable pair whose two sides have equal
memberCount (1 and 1): the merged result keeps the TODAY side's id, not
the cached side's id, refuting the claimed tie-break. -/
theorem merge_tie_counterexample :
    ((Step4.merge_duplicate_news
        [⟨"today-0001", "T title", "T summary", ["a1"], 1, "t", ["k1"], 0, none⟩]
        [⟨"cache-0001", "C title", "C summary", ["b1"], 1, "t", ["k2"], 0, none⟩]
        [⟨"today-0001", "cache-0001", "same story"⟩] 7).map (fun n => n.news_id)
      = ["today-0001"]) ∧ ("today-0001" : String) ≠ "cache-0001" := by
  exact ⟨rfl, by decide⟩

/-- C1 amended: for a resolvable pair, the merged result keeps the id,
title, summary, topic and created_at of the base side, where the base is
the side with the larger memberCount and a TIE keeps the TODAY side as
base (the source comparison is today >= cached), so with equal
memberCounts the merged cluster's id equals the TODAY cluster's id; the
merged slugs are the union of both sides. -/
theorem merge_base_selection (ti ci : Step4.NewsCluster) (p : Step4.NewsDeduplicationPair)
    (now : Int) (hpt : p.news_today_id = ti.news_id) (hpc : p.news_cached_id = ci.news_id)
    (hne : ti.news_id ≠ ci.news_id) :
    ∃ u, Step4.merge_duplicate_news [ti] [ci] [p] now = [u] ∧
      (ti.article_count ≥ ci.article_count →
        u.news_id = ti.news_id ∧ u.title = ti.title ∧ u.summary = ti.summary ∧
        u.main_topic = ti.main_topic ∧ u.created_at = ti.created_at) ∧
      (ti.article_count < ci.article_count →
        u.news_id = ci.news_id ∧ u.title = ci.title ∧ u.summary = ci.summary ∧
        u.main_topic = ci.main_topic ∧ u.created_at = ci.created_at) ∧
      u.updated_at = some now ∧
      (∀ s, s ∈ u.article_slugs ↔ s ∈ ti.article_slugs ∨ s ∈ ci.article_slugs) := by
  have hgt := dictGet_singleton ti p.news_today_id hpt
  have hgc := dictGet_singleton ci p.news_cached_id hpc
  have hneq : ti ≠ ci := fun h => hne (congrArg Step4.NewsCluster.news_id h)
  rcases le_or_lt ci.article_count ti.article_count with hge | hlt
  · refine ⟨Step4.mergedCluster ti ci now, ?_, ?_, ?_, rfl, ?_⟩
    · unfold Step4.merge_duplicate_news
      dsimp only [List.foldl]
      rw [processPair_base_today [ti] [ci] now ([ci], []) p ti ci hgt hgc hge hneq]
      dsimp only
      rw [hpt]
      simp [List.insert]
    · intro _
      exact ⟨rfl, rfl, rfl, rfl, rfl⟩
    · intro hl
      exact absurd hl (by omega)
    · intro s
      show s ∈ setList (ti.article_slugs ++ ci.article_slugs) ↔ _
      rw [mem_setList]
      exact List.mem_append
  · refine ⟨Step4.mergedCluster ci ti now, ?_, ?_, ?_, rfl, ?_⟩
    · unfold Step4.merge_duplicate_news
      dsimp only [List.foldl]
      rw [processPair_base_cached [ti] [ci] now ([ci], []) p ti ci hgt hgc hlt]
      dsimp only
      rw [hpt]
      simp [List.insert, Step4.replaceFirstById]
    · intro hg
      exact absurd hg (by omega)
    · intro _
      exact ⟨rfl, rfl, rfl, rfl, rfl⟩
    · intro s
      show s ∈ setList (ci.article_slugs ++ ti.article_slugs) ↔ _
      rw [mem_setList, List.mem_append]
      exact or_comm

theorem merge_base_selection_witness :
    ∃ u, Step4.merge_duplicate_news
        [⟨"t1", "T", "S", ["a1"], 1, "x", [], 0, none⟩]
        [⟨"c1", "C", "D", ["b1", "b2", "b3"], 3, "y", [], 0, none⟩]
        [⟨"t1", "c1", "same"⟩] 9 = [u] ∧ u.news_id = "c1" := by
  obtain ⟨u, hu, _hge, hlt, _hupd, _hslugs⟩ :=
    merge_base_selection ⟨"t1", "T", "S", ["a1"], 1, "x", [], 0, none⟩
      ⟨"c1", "C", "D", ["b1", "b2", "b3"], 3, "y", [], 0, none⟩
      ⟨"t1", "c1", "same"⟩ 9 rfl rfl (by decide)
  exact ⟨u, hu, (hlt (by decide)).1⟩

/-- C5: generate_slug returns the base slug (word part plus hash part,
probe index 0) when it is absent from the existing set; otherwise the
first absent variant among the underscore 1..9 suffixes (probe index k);
and it fails with the collision-exhausted error iff the base slug and all
nine suffixed variants are already present. -/
theorem generate_slug_collisions (h : String → String) (title : String)
    (existing : List String) :
    (Step1.baseSlug h title ∉ existing →
      Step1.generate_slug h title existing = Except.ok (Step1.baseSlug h title)) ∧
    (∀ k, 1 ≤ k → k ≤ 9 → Step1.probe (Step1.baseSlug h title) k ∉ existing →
      (∀ j, j < k → Step1.probe (Step1.baseSlug h title) j ∈ existing) →
      Step1.generate_slug h title existing =
        Except.ok (Step1.probe (Step1.baseSlug h title) k)) ∧
    ((∃ e, Step1.generate_slug h title existing = Except.error e) ↔
      ∀ j, j ≤ 9 → Step1.probe (Step1.baseSlug h title) j ∈ existing) := by
  have key : Step1.generate_slug h title existing =
      (match Step1.firstFreeFrom existing (Step1.baseSlug h title) 0 with
       | some j => Except.ok (Step1.probe (Step1.baseSlug h title) j)
       | none => Except.error "Too many slug collisions") :=
    slugLoop_eq_firstFree (Step1.baseSlug h title) existing 9 1 (by omega) (by omega)
  refine ⟨?_, ?_, ?_⟩
  · intro hfree
    have h0 : Step1.firstFreeFrom existing (Step1.baseSlug h title) 0 = some 0 :=
      firstFreeFrom_some_of existing (Step1.baseSlug h title) 10 0 0 rfl (le_refl 0)
        (by omega) hfree (fun j _ hj => by omega)
    rw [key, h0]
    rfl
  · intro k hk1 hk9 hkfree hbelow
    have h0 : Step1.firstFreeFrom existing (Step1.baseSlug h title) 0 = some k :=
      firstFreeFrom_some_of existing (Step1.baseSlug h title) 10 0 k rfl (by omega)
        (by omega) hkfree (fun j _ hj => hbelow j hj)
    rw [key, h0]
  · constructor
    · rintro ⟨e, he⟩
      rw [key] at he
      cases hff : Step1.firstFreeFrom existing (Step1.baseSlug h title) 0 with
      | some j =>
        rw [hff] at he
        cases he
      | none =>
        intro j hj
        exact (firstFreeFrom_none_iff existing (Step1.baseSlug h title) 10 0 rfl).mp
          hff j (by omega) (by omega)
    · intro hall
      refine ⟨"Too many slug collisions", ?_⟩
      rw [key, (firstFreeFrom_none_iff existing (Step1.baseSlug h title) 10 0 rfl).mpr
        (fun j _ hj2 => hall j (by omega))]

theorem generate_slug_collisions_witness :
    Step1.generate_slug (fun _ => "hashhash") "Some Title" [] =
      Except.ok (Step1.baseSlug (fun _ => "hashhash") "Some Title") ∧
    (∃ e, Step1.generate_slug (fun _ => "hashhash") "Some Title"
        ((List.range 10).map (Step1.probe (Step1.baseSlug (fun _ => "hashhash") "Some Title")))
      = Except.error e) := by
  constructor
  · exact (generate_slug_collisions (fun _ => "hashhash") "Some Title" []).1 (by simp)
  · exact (generate_slug_collisions (fun _ => "hashhash") "Some Title" _).2.2.mpr
      (fun j hj => List.mem_map.mpr ⟨j, List.mem_range.mpr (by omega), rfl⟩)

/-- C2 counterexample: two judgments resolving to the same cached base do
NOT compose: the final cluster contains only the slugs of the base and of
the LAST processed pair (slug a1 of the first absorbed side is lost), and
reordering the judgments changes the result. -/
theorem merge_same_base_counterexample :
    ((Step4.merge_duplicate_news
        [⟨"t1", "T1", "SA", ["a1"], 1, "x", [], 0, none⟩,
         ⟨"t2", "T2", "SB", ["b1"], 1, "x", [], 0, none⟩]
        [⟨"c1", "C", "D", ["m1", "m2", "m3"], 3, "y", [], 0, none⟩]
        [⟨"t1", "c1", "r1"⟩, ⟨"t2", "c1", "r2"⟩] 9).map (fun n => n.article_slugs)
      = [["m1", "m2", "m3", "b1"]]) ∧
    ((Step4.merge_duplicate_news
        [⟨"t1", "T1", "SA", ["a1"], 1, "x", [], 0, none⟩,
         ⟨"t2", "T2", "SB", ["b1"], 1, "x", [], 0, none⟩]
        [⟨"c1", "C", "D", ["m1", "m2", "m3"], 3, "y", [], 0, none⟩]
        [⟨"t2", "c1", "r2"⟩, ⟨"t1", "c1", "r1"⟩] 9).map (fun n => n.article_slugs)
      = [["m1", "m2", "m3", "a1"]]) := by
  exact ⟨rfl, rfl⟩

/-- C2 amended: two judgments in the same invocation resolving to the same
cached base overwrite rather than compose: both today sides are absorbed,
but the final output cluster for the base contains only the union of the
base's memberKeys with those of the LAST processed pair's today side, and
judgment order therefore changes the result. -/
theorem merge_same_base_overwrites (t1 t2 c : Step4.NewsCluster)
    (p1 p2 : Step4.NewsDeduplicationPair) (now : Int)
    (hp1t : p1.news_today_id = t1.news_id) (hp1c : p1.news_cached_id = c.news_id)
    (hp2t : p2.news_today_id = t2.news_id) (hp2c : p2.news_cached_id = c.news_id)
    (h12 : t1.news_id ≠ t2.news_id) (_h1c : t1.news_id ≠ c.news_id)
    (_h2c : t2.news_id ≠ c.news_id)
    (hc1 : t1.article_count < c.article_count) (hc2 : t2.article_count < c.article_count) :
    Step4.merge_duplicate_news [t1, t2] [c] [p1, p2] now =
      [Step4.mergedCluster c t2 now] ∧
    (∀ s, s ∈ (Step4.mergedCluster c t2 now).article_slugs ↔
      s ∈ c.article_slugs ∨ s ∈ t2.article_slugs) := by
  have hg1 : Step4.dictGet [t1, t2] p1.news_today_id = some t1 :=
    dictGet_pair_fst t1 t2 _ hp1t (Ne.symm h12)
  have hg2 : Step4.dictGet [t1, t2] p2.news_today_id = some t2 :=
    dictGet_pair_snd t1 t2 _ hp2t
  have hgc1 : Step4.dictGet [c] p1.news_cached_id = some c := dictGet_singleton c _ hp1c
  have hgc2 : Step4.dictGet [c] p2.news_cached_id = some c := dictGet_singleton c _ hp2c
  constructor
  · unfold Step4.merge_duplicate_news
    dsimp only [List.foldl]
    rw [processPair_base_cached [t1, t2] [c] now ([c], []) p1 t1 c hg1 hgc1 hc1]
    rw [show Step4.replaceFirstById [c] c.news_id (Step4.mergedCluster c t1 now) =
        [Step4.mergedCluster c t1 now] from by simp [Step4.replaceFirstById]]
    rw [processPair_base_cached [t1, t2] [c] now
      ([Step4.mergedCluster c t1 now], List.insert p1.news_today_id []) p2 t2 c hg2 hgc2 hc2]
    dsimp only
    rw [show Step4.replaceFirstById [Step4.mergedCluster c t1 now] c.news_id
        (Step4.mergedCluster c t2 now) = [Step4.mergedCluster c t2 now] from by
      simp [Step4.replaceFirstById, Step4.mergedCluster]]
    rw [hp1t, hp2t]
    simp [List.insert, Ne.symm h12]
  · intro s
    show s ∈ setList (c.article_slugs ++ t2.article_slugs) ↔ _
    rw [mem_setList]
    exact List.mem_append

theorem merge_same_base_overwrites_witness :
    Step4.merge_duplicate_news
      [⟨"t1", "T1", "SA", ["a1"], 1, "x", [], 0, none⟩,
       ⟨"t2", "T2", "SB", ["b1"], 1, "x", [], 0, none⟩]
      [⟨"c1", "C", "D", ["m1", "m2", "m3"], 3, "y", [], 0, none⟩]
      [⟨"t1", "c1", "r1"⟩, ⟨"t2", "c1", "r2"⟩] 9 =
      [Step4.mergedCluster ⟨"c1", "C", "D", ["m1", "m2", "m3"], 3, "y", [], 0, none⟩
        ⟨"t2", "T2", "SB", ["b1"], 1, "x", [], 0, none⟩ 9] :=
  (merge_same_base_overwrites
    ⟨"t1", "T1", "SA", ["a1"], 1, "x", [], 0, none⟩
    ⟨"t2", "T2", "SB", ["b1"], 1, "x", [], 0, none⟩
    ⟨"c1", "C", "D", ["m1", "m2", "m3"], 3, "y", [], 0, none⟩
    ⟨"t1", "c1", "r1"⟩ ⟨"t2", "c1", "r2"⟩ 9
    rfl rfl rfl rfl (by decide) (by decide) (by decide) (by decide) (by decide)).1

/-- C8: every cluster in the list returned by Merge — merged clusters,
cached pass-through clusters and today pass-through clusters alike —
satisfies memberCount = number of memberKeys and at most 10 keywords,
given inputs that satisfy the data-model invariants of Cluster (the
pydantic validator enforces the count; the 10-keyword bound is the
documented field bound). -/
theorem merge_invariants (today cached : List Step4.NewsCluster)
    (pairs : List Step4.NewsDeduplicationPair) (now : Int)
    (ht : ∀ n ∈ today, Step4.clusterInv n) (hc : ∀ n ∈ cached, Step4.clusterInv n) :
    ∀ u ∈ Step4.merge_duplicate_news today cached pairs now, Step4.clusterInv u := by
  intro u hu
  unfold Step4.merge_duplicate_news at hu
  dsimp only at hu
  rcases List.mem_append.mp hu with h | h
  · exact merge_fold_inv today cached now pairs (cached, []) hc u h
  · exact ht u (List.mem_filter.mp h).1

theorem merge_invariants_witness :
    Step4.clusterInv (Step4.NewsCluster.mk "t1" "T" "S" ["a1"] 1 "x" ["k"] 0 none) := by
  refine merge_invariants [⟨"t1", "T", "S", ["a1"], 1, "x", ["k"], 0, none⟩]
    [⟨"c1", "C", "D", ["b1"], 1, "y", ["m"], 0, none⟩] [] 0 (by decide) (by decide)
    ⟨"t1", "T", "S", ["a1"], 1, "x", ["k"], 0, none⟩ (by decide)

/-- C7: for every non-empty input batch, running the step2 dedup a second
time with the same input against the store state left by the first run
classifies every record as a duplicate: zero unique records, duplicate
count equal to the input length, and duplicateRate exactly 1. -/
theorem dedup_idempotent (others : List Step2.ProcessedArticle) (st0 : Step2.TodayFileState)
    (articles : List Step2.ProcessedArticle) (now : Int) (hne : articles ≠ []) :
    (Step2.dedupArticles (Step2.secondRunCache others st0 articles now) articles).1 = [] ∧
    (Step2.dedupArticles (Step2.secondRunCache others st0 articles now) articles).2 =
      articles.length ∧
    Step2.dedupRate
      (Step2.dedupArticles (Step2.secondRunCache others st0 articles now) articles).2
      articles.length = 1 := by
  have hknown : ∀ a ∈ articles,
      a.slug ∈ (Step2.secondRunCache others st0 articles now).map (fun b => b.slug) := by
    intro a ha
    have h1 : a.slug ∈ (articles.foldl Step2.dedupStep
        ([], 0, (others ++ Step2.todayFileArticles st0).map (fun b => b.slug))).2.2 :=
      dedup_slug_of_mem articles _ a ha
    by_cases hr1 : (Step2.dedupArticles (others ++ Step2.todayFileArticles st0) articles).1 = []
    · have hcache : Step2.secondRunCache others st0 articles now =
          others ++ Step2.todayFileArticles st0 := by
        simp only [Step2.secondRunCache]
        rw [if_pos hr1]
      rw [hcache]
      rcases dedup_slugs_source articles _ a.slug h1 with hsrc | ⟨b, hb, hbs⟩
      · exact hsrc
      · rw [dedupArticles_fst] at hr1
        rw [hr1] at hb
        cases hb
    · have hcache : Step2.secondRunCache others st0 articles now =
          others ++ (Step2.save_articles_to_daily_cache st0
            (Step2.dedupArticles (others ++ Step2.todayFileArticles st0) articles).1
            now).2.articles := by
        simp only [Step2.secondRunCache]
        rw [if_neg hr1]
      rw [hcache, save_articles_body]
      rcases dedup_slugs_source articles _ a.slug h1 with hsrc | ⟨b, hb, hbs⟩
      · obtain ⟨c, hc, hcs⟩ := List.mem_map.mp hsrc
        rcases List.mem_append.mp hc with hco | hct
        · exact List.mem_map.mpr ⟨c, List.mem_append.mpr (Or.inl hco), hcs⟩
        · obtain ⟨b2, hb2, hb2s⟩ := hasSlug_upsert_left (Step2.todayFileArticles st0) _ c hct
          exact List.mem_map.mpr ⟨b2, List.mem_append.mpr (Or.inr hb2), by rw [hb2s, hcs]⟩
      · have hb2 : b ∈ (Step2.dedupArticles
            (others ++ Step2.todayFileArticles st0) articles).1 := by
          rw [dedupArticles_fst]
          exact hb
        obtain ⟨b2, hb2m, hb2s⟩ := hasSlug_upsert_right (Step2.todayFileArticles st0) _ b hb2
        exact List.mem_map.mpr ⟨b2, List.mem_append.mpr (Or.inr hb2m), by rw [hb2s, hbs]⟩
  have hfin := dedup_all_known articles
    ([], 0, (Step2.secondRunCache others st0 articles now).map (fun b => b.slug)) hknown
  have hlen : articles.length ≠ 0 := by
    intro h0
    exact hne (List.length_eq_zero.mp h0)
  refine ⟨?_, ?_, ?_⟩
  · rw [dedupArticles_fst]
    exact hfin.1
  · rw [dedupArticles_snd, hfin.2]
    exact Nat.zero_add _
  · rw [dedupArticles_snd, hfin.2]
    show Step2.dedupRate (0 + articles.length) articles.length = 1
    rw [Nat.zero_add]
    unfold Step2.dedupRate
    rw [if_neg hlen]
    exact div_self (Nat.cast_ne_zero.mpr hlen)

theorem dedup_idempotent_witness :
    (Step2.dedupArticles
      (Step2.secondRunCache [⟨"O", "o1"⟩] (.valid ⟨0, [⟨"E", "e1"⟩], 1⟩)
        [⟨"N", "n1"⟩, ⟨"O", "o1"⟩] 5)
      [⟨"N", "n1"⟩, ⟨"O", "o1"⟩]).1 = [] ∧
    (Step2.dedupArticles
      (Step2.secondRunCache [⟨"O", "o1"⟩] (.valid ⟨0, [⟨"E", "e1"⟩], 1⟩)
        [⟨"N", "n1"⟩, ⟨"O", "o1"⟩] 5)
      [⟨"N", "n1"⟩, ⟨"O", "o1"⟩]).2 = 2 := by
  obtain ⟨h1, h2, _h3⟩ := dedup_idempotent [⟨"O", "o1"⟩] (.valid ⟨0, [⟨"E", "e1"⟩], 1⟩)
    [⟨"N", "n1"⟩, ⟨"O", "o1"⟩] 5 (by simp)
  exact ⟨h1, h2⟩

/-- C9: run_step0 deletes the cache-directory lock file on every return
path, including the early success-False return taken when an unexpired
lock held by another instance prevents acquisition; consequently after any
invocation the lock file is absent and an immediately subsequent lock
acquisition succeeds. -/
theorem run_step0_always_releases_lock (lock : Option Int) (now : Int) (bodyOk : Bool) :
    (Step0.run_step0 lock now bodyOk).2 = none ∧
    (∀ now2 : Int, (Step0.acquire_lock_file (Step0.run_step0 lock now bodyOk).2 now2).1 = true) ∧
    (∀ t : Int, lock = some t → now - t ≤ 3600 →
      (Step0.run_step0 lock now bodyOk).1 = false) := by
  refine ⟨rfl, fun now2 => rfl, fun t ht hle => ?_⟩
  subst ht
  have hcond : ¬ (now - t > 3600) := by omega
  simp [Step0.run_step0, Step0.acquire_lock_file, hcond]

theorem run_step0_always_releases_lock_witness :
    (Step0.run_step0 (some 0) 100 true).2 = none ∧
    (Step0.acquire_lock_file (Step0.run_step0 (some 0) 100 true).2 50).1 = true ∧
    (Step0.run_step0 (some 0) 100 true).1 = false := by
  obtain ⟨h1, h2, h3⟩ := run_step0_always_releases_lock (some 0) 100 true
  exact ⟨h1, h2 50, h3 0 rfl (by decide)⟩

/-- C10: if today's shard file exists but its body fails JSON parsing or
schema validation, the save discards the existing entries and rewrites the
file with only the newly appended items, still reporting success (the
result is identical to the absent-file case); whereas with a valid
existing file every previously accumulated slug is retained. -/
theorem save_corrupt_today_discards (articles : List Step2.ProcessedArticle) (now : Int)
    (day : Step2.CachedArticlesDay) :
    (Step2.save_articles_to_daily_cache .corrupt articles now).1 = true ∧
    Step2.save_articles_to_daily_cache .corrupt articles now =
      Step2.save_articles_to_daily_cache .absent articles now ∧
    (∀ a ∈ (Step2.save_articles_to_daily_cache .corrupt articles now).2.articles,
      a ∈ articles) ∧
    (∀ a ∈ articles,
      ∃ b ∈ (Step2.save_articles_to_daily_cache .corrupt articles now).2.articles,
        b.slug = a.slug) ∧
    (∀ e ∈ day.articles,
      ∃ b ∈ (Step2.save_articles_to_daily_cache (.valid day) articles now).2.articles,
        b.slug = e.slug) := by
  refine ⟨rfl, rfl, ?_, ?_, ?_⟩
  · intro a ha
    rcases mem_upsert [] articles a ha with h | h
    · cases h
    · exact h
  · intro a ha
    exact hasSlug_upsert_right [] articles a ha
  · intro e he
    exact hasSlug_upsert_left day.articles articles e he

/-- C3 counterexample: with a 3-day lookback and today = day 10, a run at
noon computes cutoff = day 7 at noon, and the valid shard dated day 7
(midnight) is excluded, contradicting the claim that for every time of day
the shard dated exactly d days before today is loaded. -/
theorem retention_boundary_counterexample :
    Step2.load_cached_articles [⟨some (7 * 86400), some ⟨7 * 86400, [⟨"A", "a"⟩], 1⟩⟩]
      ((10 * 86400 + 43200) - 3 * 86400) = ([], ⟨0, 0⟩) := by decide

/-- C3 amended: with a lookback of d days and the run happening tau seconds
after midnight of day number today, the shard dated exactly d days before
today is loaded iff tau = 0 (the run happens exactly at midnight); a shard
dated d - 1 days before today is always loaded and a shard dated d + 1
days before today is always excluded. -/
theorem retention_boundary (d today : Nat) (tau : Int)
    (day1 day2 day3 : Step2.CachedArticlesDay) (h0 : 0 ≤ tau) (h1 : tau < 86400) :
    ((Step2.load_cached_articles [⟨some (((today : Int) - (d : Int)) * 86400), some day1⟩]
        (((today : Int) * 86400 + tau) - (d : Int) * 86400)).2.files_loaded = 1 ↔ tau = 0) ∧
    (Step2.load_cached_articles [⟨some (((today : Int) - (d : Int) + 1) * 86400), some day2⟩]
        (((today : Int) * 86400 + tau) - (d : Int) * 86400)).2.files_loaded = 1 ∧
    (Step2.load_cached_articles [⟨some (((today : Int) - (d : Int) - 1) * 86400), some day3⟩]
        (((today : Int) * 86400 + tau) - (d : Int) * 86400)).2.files_loaded = 0 := by
  refine ⟨?_, ?_, ?_⟩
  · by_cases hlt : ((today : Int) - (d : Int)) * 86400 <
        ((today : Int) * 86400 + tau) - (d : Int) * 86400
    all_goals simp [Step2.load_cached_articles, Step2.loadFileStep, hlt]
    all_goals omega
  · by_cases hlt : ((today : Int) - (d : Int) + 1) * 86400 <
        ((today : Int) * 86400 + tau) - (d : Int) * 86400
    all_goals simp [Step2.load_cached_articles, Step2.loadFileStep, hlt]
    all_goals omega
  · by_cases hlt : ((today : Int) - (d : Int) - 1) * 86400 <
        ((today : Int) * 86400 + tau) - (d : Int) * 86400
    all_goals simp [Step2.load_cached_articles, Step2.loadFileStep, hlt]
    all_goals omega

theorem retention_boundary_witness :
    (0 : Int) ≤ 43200 ∧ (43200 : Int) < 86400 ∧
    (Step2.load_cached_articles
        [⟨some ((((10 : Nat) : Int) - ((3 : Nat) : Int) + 1) * 86400), some ⟨0, [], 0⟩⟩]
        ((((10 : Nat) : Int) * 86400 + 43200) - ((3 : Nat) : Int) * 86400)).2.files_loaded
      = 1 :=
  ⟨by decide, by decide,
    (retention_boundary 3 10 43200 ⟨0, [], 0⟩ ⟨0, [], 0⟩ ⟨0, [], 0⟩
      (by decide) (by decide)).2.1⟩

/-- C4 counterexample: cleanup never touches date-sharded files under
category subdirectories: an articles shard dated day 1 survives, with zero
entries counted, a cleanup run at day 30 with a 10-day retention for the
articles category, even though its age exceeds the window. -/
theorem cleanup_counterexample :
    CacheUtil.cleanup [⟨"articles/day-0001", none⟩] [("articles", 10), ("news", 3)]
      (30 * 86400) = ([⟨"articles/day-0001", none⟩], 0) := by decide

/-- C4 amended: cleanup removes only the single top-level file whose key
exactly equals a configured retention key and whose recorded age makes it
not fresh; every entry whose key is not itself a retention key — in
particular every date-sharded file under a category subdirectory — is
preserved, and removals are counted. -/
theorem cleanup_top_level_only (entries : List CacheUtil.CacheEntry)
    (retention : List (String × Nat)) (now : Int) :
    (∀ e ∈ (CacheUtil.cleanup entries retention now).1, e ∈ entries) ∧
    (∀ e ∈ entries, (∀ p ∈ retention, e.key ≠ p.1) →
      e ∈ (CacheUtil.cleanup entries retention now).1) ∧
    (∀ (key : String) (days : Nat) (e : CacheUtil.CacheEntry), e ∈ entries → e.key = key →
      CacheUtil.isFresh entries key days now = false →
      e ∉ (CacheUtil.cleanup entries [(key, days)] now).1 ∧
      (CacheUtil.cleanup entries [(key, days)] now).2 = 1) := by
  refine ⟨?_, ?_, ?_⟩
  · intro e he
    exact cleanup_subset retention (entries, 0) e now he
  · intro e he hkeys
    exact cleanup_preserves retention (entries, 0) e now he hkeys
  · intro key days e he hkey hfresh
    have hex : CacheUtil.cacheExists entries key = true :=
      List.any_eq_true.mpr ⟨e, he, by simp [hkey]⟩
    have hcond : (CacheUtil.cacheExists entries key && !(CacheUtil.isFresh entries key days now))
        = true := by
      rw [hex, hfresh]
      rfl
    constructor
    · intro habs
      have : e ∈ CacheUtil.cacheDelete entries key := by
        simpa [CacheUtil.cleanup, CacheUtil.cleanupStep, hcond] using habs
      rw [CacheUtil.cacheDelete, List.mem_filter] at this
      exact absurd hkey (by simpa using this.2)
    · simp [CacheUtil.cleanup, CacheUtil.cleanupStep, hcond]

theorem cleanup_top_level_only_witness :
    (⟨"articles/day-0001", none⟩ : CacheUtil.CacheEntry) ∈
      (CacheUtil.cleanup [⟨"articles/day-0001", none⟩, ⟨"articles", some 0⟩]
        [("articles", 10)] (20 * 86400)).1 ∧
    (⟨"articles", some 0⟩ : CacheUtil.CacheEntry) ∉
      (CacheUtil.cleanup [⟨"articles/day-0001", none⟩, ⟨"articles", some 0⟩]
        [("articles", 10)] (20 * 86400)).1 ∧
    (CacheUtil.cleanup [⟨"articles/day-0001", none⟩, ⟨"articles", some 0⟩]
        [("articles", 10)] (20 * 86400)).2 = 1 := by
  obtain ⟨_h1, h2, h3⟩ :=
    cleanup_top_level_only [⟨"articles/day-0001", none⟩, ⟨"articles", some 0⟩]
      [("articles", 10)] (20 * 86400)
  obtain ⟨hdel, hcnt⟩ :=
    h3 "articles" 10 ⟨"articles", some 0⟩ (by simp) rfl (by decide)
  exact ⟨h2 ⟨"articles/day-0001", none⟩ (by simp) (by decide), hdel, hcnt⟩

/-- C6 counterexample: a directory with one valid shard and one corrupted
shard whose filename date parses to a day older than the cutoff: the
corrupted file is skipped silently before its body is read, so the load
reports files_corrupted = 0, not 1 as the claim requires. -/
theorem corruption_isolation_counterexample :
    Step2.load_cached_articles
      [⟨some 0, none⟩, ⟨some (20 * 86400), some ⟨20 * 86400, [⟨"A", "a"⟩], 1⟩⟩]
      (10 * 86400) = ([⟨"A", "a"⟩], ⟨1, 0⟩) := by decide

/-- C6 amended: with one valid shard file (date at or after the cutoff) and
one corrupted shard file, in either order, loading returns exactly the
valid shard's items and never raises; files_loaded = 1 and
files_corrupted = 1 hold whenever the corrupted file's filename date fails
to parse or parses to a date at or after the cutoff, while a body-corrupt
file dated before the cutoff is skipped silently (files_corrupted = 0). -/
theorem corruption_isolation (v c : Step2.CacheFile) (cutoff dv : Int)
    (dayv : Step2.CachedArticlesDay) (hv1 : v.dateParse = some dv) (hv2 : ¬ dv < cutoff)
    (hv3 : v.body = some dayv) :
    ((c.dateParse = none ∨ ∃ dc, c.dateParse = some dc ∧ ¬ dc < cutoff ∧ c.body = none) →
      Step2.load_cached_articles [v, c] cutoff = (dayv.articles, ⟨1, 1⟩) ∧
      Step2.load_cached_articles [c, v] cutoff = (dayv.articles, ⟨1, 1⟩)) ∧
    (∀ dc, c.dateParse = some dc → dc < cutoff →
      Step2.load_cached_articles [v, c] cutoff = (dayv.articles, ⟨1, 0⟩) ∧
      Step2.load_cached_articles [c, v] cutoff = (dayv.articles, ⟨1, 0⟩)) := by
  constructor
  · rintro (hc | ⟨dc, hc1, hc2, hc3⟩)
    · constructor <;>
        simp [Step2.load_cached_articles, Step2.loadFileStep, hv1, hv2, hv3, hc]
    · constructor <;>
        simp [Step2.load_cached_articles, Step2.loadFileStep, hv1, hv2, hv3, hc1, hc2, hc3]
  · intro dc hc1 hc2
    constructor <;>
      simp [Step2.load_cached_articles, Step2.loadFileStep, hv1, hv2, hv3, hc1, hc2]

theorem corruption_isolation_witness :
    Step2.load_cached_articles
      [⟨some (12 * 86400), some ⟨12 * 86400, [⟨"A", "a"⟩], 1⟩⟩, ⟨none, none⟩]
      (10 * 86400) = ([⟨"A", "a"⟩], ⟨1, 1⟩) ∧
    Step2.load_cached_articles
      [⟨none, none⟩, ⟨some (12 * 86400), some ⟨12 * 86400, [⟨"A", "a"⟩], 1⟩⟩]
      (10 * 86400) = ([⟨"A", "a"⟩], ⟨1, 1⟩) :=
  (corruption_isolation ⟨some (12 * 86400), some ⟨12 * 86400, [⟨"A", "a"⟩], 1⟩⟩
    ⟨none, none⟩ (10 * 86400) (12 * 86400) ⟨12 * 86400, [⟨"A", "a"⟩], 1⟩
    rfl (by decide) rfl).1 (Or.inl rfl)

theorem save_corrupt_today_discards_witness :
    (Step2.save_articles_to_daily_cache .corrupt [⟨"T", "s1"⟩] 0).1 = true ∧
    (∃ b ∈ (Step2.save_articles_to_daily_cache .corrupt [⟨"T", "s1"⟩] 0).2.articles,
      b.slug = "s1") ∧
    (∃ b ∈ (Step2.save_articles_to_daily_cache
        (.valid ⟨0, [⟨"U", "s0"⟩], 1⟩) [⟨"T", "s1"⟩] 0).2.articles, b.slug = "s0") := by
  obtain ⟨h1, _h2, _h3, h4, h5⟩ :=
    save_corrupt_today_discards [⟨"T", "s1"⟩] 0 ⟨0, [⟨"U", "s0"⟩], 1⟩
  exact ⟨h1, h4 ⟨"T", "s1"⟩ (by simp), h5 ⟨"U", "s0"⟩ (by simp)⟩

end AINews
